import Mathlib

/-!
# Verification of the xtbug channel endpoint and display renderer

Shallow embedding of `src/xtbug.py`: a debug probe that serializes snapshots
of named values into a non-blocking named pipe (producer, class `XTBug`) and a
curses display loop that decodes the stream and repaints on change
(consumer, `_xterm_win`).

Modelling conventions:
* Python dictionaries are embedded as association lists `List (String × V)`
  whose keys are unique (`keysNodup`); lookup/pop/assignment mirror dict
  semantics (`dlookup`, `dpop`, `dassign`).  Keys are the variable-name
  strings handed over by `locals()`/explicit argument names, on which
  Python's `str()` (line 133) is the identity.
* `pprint.pformat` is an arbitrary rendering function `render : V → String`,
  a parameter of the definitions: the producer ships only its text output.
* Python's `sorted` (line 133) on a list of string pairs is a stable sort by
  the lexicographic tuple order; it is embedded as `List.insertionSort` by
  `pairLe` (name first, value second), which is likewise stable.
-/

namespace Xtbug

/-! ## Association-list model of Python dicts -/

variable {V : Type}

/-- First-match lookup, `d[k]` / `d.get(k)`. -/
def dlookup : List (String × V) → String → Option V
  | [], _ => none
  | (a, b) :: t, k => if a = k then some b else dlookup t k

/-- `d.pop(k)`: the popped value (if any) together with the dict after the
first binding of `k` has been removed. -/
def dpop : List (String × V) → String → Option V × List (String × V)
  | [], _ => (none, [])
  | (a, b) :: t, k =>
    if a = k then (some b, t)
    else
      let r := dpop t k
      (r.1, (a, b) :: r.2)

/-- `d[k] = v`: replace the first binding of `k` in place, else append. -/
def dassign : List (String × V) → String → V → List (String × V)
  | [], k, v => [(k, v)]
  | (a, b) :: t, k, v => if a = k then (k, v) :: t else (a, b) :: dassign t k v

/-- The dict invariant: one binding per key. -/
def keysNodup (d : List (String × V)) : Prop := (d.map Prod.fst).Nodup

instance (d : List (String × V)) : Decidable (keysNodup d) := by
  unfold keysNodup; infer_instance

/-- A dict built from a sequence of insertions `d[k] = v` (last write wins),
mirroring how any Python dict passed to the endpoint was populated. -/
def dictOfList (l : List (String × V)) : List (String × V) :=
  l.foldl (fun d kv => dassign d kv.1 kv.2) []

/-! ## The producer's serialization (`XTBug.__call__`, lines 131-134) -/

/-- One decoded record on the wire: `(name, rendered value)` pairs. -/
abbrev Snapshot := List (String × String)

/-- The comparison Python's `sorted` uses on the `(str(k), pformat(v))`
tuples: lexicographic, name first. -/
def pairLe (a b : String × String) : Prop :=
  a.1 < b.1 ∨ (a.1 = b.1 ∧ a.2 ≤ b.2)

instance : DecidableRel pairLe := fun a b => by
  unfold pairLe; infer_instance

instance : IsTotal (String × String) pairLe where
  total a b := by
    rcases lt_trichotomy a.1 b.1 with h | h | h
    · exact Or.inl (Or.inl h)
    · rcases le_total a.2 b.2 with h2 | h2
      · exact Or.inl (Or.inr ⟨h, h2⟩)
      · exact Or.inr (Or.inr ⟨h.symm, h2⟩)
    · exact Or.inr (Or.inl h)

instance : IsTrans (String × String) pairLe where
  trans a b c hab hbc := by
    rcases hab with h1 | ⟨e1, l1⟩
    · rcases hbc with h2 | ⟨e2, _⟩
      · exact Or.inl (h1.trans h2)
      · exact Or.inl (e2 ▸ h1)
    · rcases hbc with h2 | ⟨e2, l2⟩
      · exact Or.inl (e1 ▸ h2)
      · exact Or.inr ⟨e1.trans e2, l1.trans l2⟩

/-- `sorted([(str(k), pformat(v)) for (k, v) in variables.items()])`:
the serialized snapshot of a dict (line 131-134). -/
def snapshotOf (render : V → String) (vars : List (String × V)) : Snapshot :=
  List.insertionSort pairLe (vars.map fun kv => (kv.1, render kv.2))

/-! ## The named-extraction loop (`__call__` lines 123-130)

```
dic = {}
for each in args:
    try:
        dic[each] = variables.pop(each)
    except KeyError:
        continue
variables = dic
```
Returns `(dic, variables)`: the extracted dict and the caller's mutated one. -/
def extractGo : List String → List (String × V) → List (String × V) →
    List (String × V) × List (String × V)
  | [], vars, dic => (dic, vars)
  | n :: rest, vars, dic =>
    match dpop vars n with
    | (some v, vars2) => extractGo rest vars2 (dassign dic n v)
    | (none, _) => extractGo rest vars dic

/-! ## The transport (named pipe) and the non-blocking write

The producer opens the pipe `os.open(self._pipe, os.O_RDWR | os.O_NONBLOCK)`
(line 108) and writes with `os.write`, catching `OSError` (lines 131-136).
The pipe is modelled at record granularity: a bounded FIFO of snapshots; a
non-blocking write on a full pipe fails with `EAGAIN` instead of blocking. -/

/-- The `os` error conditions the embedding distinguishes. -/
inductive OSError where
  | EAGAIN | EEXIST | ENOENT | EACCES | EBADF
  deriving DecidableEq, Repr

/-- Flags of `os.open` as used on line 108. -/
inductive OpenFlag where
  | O_RDWR | O_NONBLOCK
  deriving DecidableEq, Repr

/-- `os.O_RDWR | os.O_NONBLOCK` (line 108): the write side is opened
read-write and non-blocking. -/
def soutFlags : List OpenFlag := [OpenFlag.O_RDWR, OpenFlag.O_NONBLOCK]

/-- A named pipe: queued records and its buffer capacity. -/
structure Pipe where
  buf : List Snapshot
  cap : Nat
  deriving DecidableEq, Repr

/-- `os.write` on a descriptor opened with `O_NONBLOCK`: enqueue if the
buffer has room, otherwise fail immediately with `EAGAIN` (never blocks). -/
def osWriteNB (p : Pipe) (r : Snapshot) : Pipe × Except OSError Unit :=
  if p.buf.length < p.cap then ({ p with buf := p.buf ++ [r] }, Except.ok ())
  else (p, Except.error OSError.EAGAIN)

/-- The dict the serialization step sees: `variables` itself, or `dic` after
the extraction loop when `args` were supplied (lines 123-130). -/
def callVars (vars : List (String × V)) (args : List String) : List (String × V) :=
  if args.isEmpty then vars else (extractGo args vars []).1

/-- The caller's dict object after `__call__` returns: mutated by the
`variables.pop(each)` calls when `args` were supplied. -/
def callMutated (vars : List (String × V)) (args : List String) : List (String × V) :=
  if args.isEmpty then vars else (extractGo args vars []).2

/-- `XTBug.__call__(variables, *args)` (lines 118-136): extract the requested
names if any, serialize, write non-blocking, and swallow `OSError`
(`except OSError: pass`, lines 135-136).  Returns the new pipe state and the
caller's (possibly mutated) dict; the return type carries no error: the
operation always returns normally. -/
def xtbugCall (render : V → String) (p : Pipe) (vars : List (String × V))
    (args : List String) : Pipe × List (String × V) :=
  ((osWriteNB p (snapshotOf render (callVars vars args))).1, callMutated vars args)

/-! ## The display renderer (`_xterm_win`, lines 142-170) -/

/-- `'{0} {1} '.format(name[:29], '.' * (28 - len(name[:29])))` (lines
160-161): the name truncated to 29 chars, one space, dot fill, one space.
Python's negative string repeat yields `''`, matching `Nat` subtraction. -/
def fmtName (name : String) : String :=
  let t := name.data.take 29
  String.mk (t ++ [' '] ++ List.replicate (28 - t.length) '.' ++ [' '])

/-- `"{0:30}{1}\n".format(name, val)` (line 157): the dotted name padded
right to 30 columns, the rendered value, a newline. -/
def fmtRow (name val : String) : String :=
  let n := fmtName name
  n ++ String.mk (List.replicate (30 - n.length) ' ') ++ val ++ String.mk [Char.ofNat 10]

/-- The `out` accumulation loop over one decoded snapshot (lines 156-162). -/
def formatSnapshot (snap : Snapshot) : String :=
  snap.foldl (fun out kv => out ++ fmtRow kv.1 kv.2) ""

/-- The renderer's state between loop iterations: `outprev` (line 154) and
what the curses screen currently shows. -/
structure ScreenState where
  outprev : String
  screen : String
  deriving DecidableEq, Repr

/-- One iteration of the render loop after a snapshot was decoded (lines
156-170): format, and repaint only `if out and out != outprev`.  `bound`
models the curses window capacity; an oversized `addstr` paints the
fallback message (lines 166-168).  Returns the new state and whether a
repaint happened. -/
def renderStep (bound : Nat) (st : ScreenState) (snap : Snapshot) :
    ScreenState × Bool :=
  let out := formatSnapshot snap
  if out ≠ "" ∧ out ≠ st.outprev then
    ({ outprev := out,
       screen := if out.length ≤ bound then out
                 else "Error: Output line too long?" }, true)
  else (st, false)

/-! ## Transport creation (`XTBug.__init__`, lines 80-84)

```
try:
    _os.mkfifo(self._pipe)
except OSError:
    _os.remove(self._pipe)
    _os.mkfifo(self._pipe)
```
The filesystem is modelled for one pipe path: whether the fifo exists (tagged
with a creation id so that "recreated fresh" is expressible) and whether the
environment lets this process create it at all. -/

structure FS where
  pipe : Option Nat
  nextId : Nat
  canCreate : Bool
  deriving DecidableEq, Repr

/-- `os.mkfifo`: fails with `EEXIST` if the object exists, with `EACCES` if
the environment forbids creation, else creates a fresh object. -/
def mkfifo (fs : FS) : Except OSError FS :=
  if fs.pipe.isSome then Except.error OSError.EEXIST
  else if fs.canCreate then
    Except.ok { fs with pipe := some fs.nextId, nextId := fs.nextId + 1 }
  else Except.error OSError.EACCES

/-- `os.remove`: fails with `ENOENT` if the object does not exist. -/
def removePipe (fs : FS) : Except OSError FS :=
  if fs.pipe.isSome then Except.ok { fs with pipe := none }
  else Except.error OSError.ENOENT

/-- Lines 80-84: try `mkfifo`; on `OSError` remove the stale object and
`mkfifo` again.  Errors of the second attempt (or of the remove) are not
caught — they propagate to the constructor's caller. -/
def initTransport (fs : FS) : Except OSError FS :=
  match mkfifo fs with
  | Except.ok fs2 => Except.ok fs2
  | Except.error _ =>
    match removePipe fs with
    | Except.ok fs2 => mkfifo fs2
    | Except.error e => Except.error e

/-! ## Teardown (`XTBug.__del__`, lines 138-139) -/

/-- The process's open file descriptors. -/
structure FDState where
  openFDs : List Nat
  deriving DecidableEq, Repr

/-- `os.close(fd)`: raises `OSError` (`EBADF`) if `fd` is not open. -/
def osClose (s : FDState) (fd : Nat) : Except OSError FDState :=
  if fd ∈ s.openFDs then Except.ok { openFDs := s.openFDs.erase fd }
  else Except.error OSError.EBADF

/-- `def __del__(self): _os.close(self.sout)` (lines 138-139): a bare
`os.close` with no guard; any `OSError` it raises propagates. -/
def xtbugDel (s : FDState) (sout : Nat) : Except OSError FDState :=
  osClose s sout

/-! ## The wire format

Modelled from the spec: the serialization scheme itself is `pickle` from the
Python standard library, which is not part of this repository; only its calls
(`_pickle.dumps` on line 132, `_pickle.load` on line 158) are.  The spec's
wire-format contract is that any scheme is acceptable that "(a) is
self-delimiting when concatenated in a stream and (b) round-trips string
pairs exactly", preferring "an explicit length-prefixed or tagged framing".
The model below is such a length-prefixed framing over unicode text: a
number is its decimal digits, a string is `length ':' chars`, a record is
`count ':'` followed by its name/value strings in order. -/

/-- Is `c` a decimal digit? -/
def isDig (c : Char) : Bool := 48 ≤ c.toNat && c.toNat ≤ 57

/-- The digit character for `d < 10`. -/
def digChar : Nat → Char
  | 0 => '0' | 1 => '1' | 2 => '2' | 3 => '3' | 4 => '4'
  | 5 => '5' | 6 => '6' | 7 => '7' | 8 => '8' | 9 => '9'
  | _ => '*'

/-- Numeric value of a digit character. -/
def charVal (c : Char) : Nat := c.toNat - 48

/-- Decimal digits of `n`, most significant first (empty for `0`). -/
def encodeNat (n : Nat) : List Char := (Nat.digits 10 n).reverse.map digChar

/-- Read a (possibly empty) run of decimal digits off the stream. -/
def decodeNat (s : List Char) : Nat × List Char :=
  (Nat.ofDigits 10 ((s.takeWhile isDig).map charVal).reverse, s.dropWhile isDig)

/-- A string on the wire: decimal length, `':'`, then the characters. -/
def encodeStr (s : String) : List Char :=
  encodeNat s.data.length ++ [':'] ++ s.data

/-- Read one length-prefixed string off the stream. -/
def decodeStr (s : List Char) : Option (String × List Char) :=
  let r := decodeNat s
  match r.2 with
  | ':' :: rest => if r.1 ≤ rest.length
      then some (String.mk (rest.take r.1), rest.drop r.1)
      else none
  | _ => none

/-- One `(name, value)` pair on the wire. -/
def encodePair (p : String × String) : List Char :=
  encodeStr p.1 ++ encodeStr p.2

/-- Read one pair off the stream. -/
def decodePair (s : List Char) : Option ((String × String) × List Char) :=
  match decodeStr s with
  | none => none
  | some (n, s2) =>
    match decodeStr s2 with
    | none => none
    | some (v, s3) => some ((n, v), s3)

/-- Read `k` pairs off the stream. -/
def decodePairs : Nat → List Char → Option (Snapshot × List Char)
  | 0, s => some ([], s)
  | k + 1, s =>
    match decodePair s with
    | none => none
    | some (p, s2) =>
      match decodePairs k s2 with
      | none => none
      | some (ps, s3) => some (p :: ps, s3)

/-- One record (one `Snapshot`) on the wire: pair count, `':'`, the pairs. -/
def encodeRecord (r : Snapshot) : List Char :=
  encodeNat r.length ++ [':'] ++ (r.map encodePair).flatten

/-- Read one self-delimited record off the stream, returning it together
with the unconsumed remainder (the consumer's repeated `pickle.load(sin)`,
line 158). -/
def decodeRecord (s : List Char) : Option (Snapshot × List Char) :=
  let r := decodeNat s
  match r.2 with
  | ':' :: rest => decodePairs r.1 rest
  | _ => none

/-- Read `k` consecutive records off the stream. -/
def decodeRecords : Nat → List Char → Option (List Snapshot × List Char)
  | 0, s => some ([], s)
  | k + 1, s =>
    match decodeRecord s with
    | none => none
    | some (r, s2) =>
      match decodeRecords k s2 with
      | none => none
      | some (rs, s3) => some (r :: rs, s3)

/-! ## Dict lemmas -/

theorem dpop_fst (m : List (String × V)) (k : String) :
    (dpop m k).1 = dlookup m k := by
  induction m with
  | nil => rfl
  | cons hd t ih =>
    obtain ⟨a, b⟩ := hd
    simp only [dpop, dlookup]
    split <;> simp [ih]

theorem keys_dpop_sublist (m : List (String × V)) (k : String) :
    List.Sublist ((dpop m k).2.map Prod.fst) (m.map Prod.fst) := by
  induction m with
  | nil => simp [dpop]
  | cons hd t ih =>
    obtain ⟨a, b⟩ := hd
    simp only [dpop]
    split
    · exact List.sublist_cons_self a (t.map Prod.fst)
    · simpa using ih.cons₂ a

theorem keysNodup_dpop {m : List (String × V)} (hm : keysNodup m) (k : String) :
    keysNodup (dpop m k).2 :=
  hm.sublist (keys_dpop_sublist m k)

theorem dlookup_dpop_ne {j k : String} (h : j ≠ k) (m : List (String × V)) :
    dlookup (dpop m k).2 j = dlookup m j := by
  induction m with
  | nil => rfl
  | cons hd t ih =>
    obtain ⟨a, b⟩ := hd
    simp only [dpop, dlookup]
    split
    · rename_i hak
      simp only [dlookup]
      rw [if_neg (fun haj => h (haj.symm.trans hak))]
    · simp only [dlookup]
      split <;> simp [ih]

theorem dlookup_eq_none_iff {m : List (String × V)} {k : String} :
    dlookup m k = none ↔ k ∉ m.map Prod.fst := by
  induction m with
  | nil => simp [dlookup]
  | cons hd t ih =>
    obtain ⟨a, b⟩ := hd
    simp only [dlookup, List.map_cons, List.mem_cons]
    split
    · rename_i hak
      simp [hak]
    · rename_i hak
      simp only [ih]
      constructor
      · intro hk hor
        rcases hor with hor | hor
        · exact hak hor.symm
        · exact hk hor
      · intro hk
        exact fun hmem => hk (Or.inr hmem)

theorem dlookup_dpop_self {m : List (String × V)} (hm : keysNodup m) (k : String) :
    dlookup (dpop m k).2 k = none := by
  induction m with
  | nil => rfl
  | cons hd t ih =>
    obtain ⟨a, b⟩ := hd
    rw [keysNodup, List.map_cons, List.nodup_cons] at hm
    simp only [dpop]
    split
    · rename_i hak
      exact dlookup_eq_none_iff.mpr (by rw [← hak]; exact hm.1)
    · rename_i hak
      simp only [dlookup]
      rw [if_neg hak]
      exact ih hm.2

theorem dlookup_dassign (d : List (String × V)) (k j : String) (v : V) :
    dlookup (dassign d k v) j = if k = j then some v else dlookup d j := by
  induction d with
  | nil => simp [dassign, dlookup]
  | cons hd t ih =>
    obtain ⟨a, b⟩ := hd
    simp only [dassign]
    split
    · rename_i hak
      subst hak
      simp only [dlookup]
      split <;> rfl
    · rename_i hak
      simp only [dlookup, ih]
      by_cases haj : a = j
      · subst haj
        rw [if_pos rfl, if_neg (fun hkj => hak hkj.symm), if_pos rfl]
      · rw [if_neg haj]
        split <;> simp [haj]

theorem mem_keys_dassign {d : List (String × V)} {k j : String} {v : V} :
    j ∈ (dassign d k v).map Prod.fst ↔ j = k ∨ j ∈ d.map Prod.fst := by
  induction d with
  | nil => simp [dassign]
  | cons hd t ih =>
    obtain ⟨a, b⟩ := hd
    simp only [dassign]
    split
    · rename_i hak
      subst hak
      simp only [List.map_cons, List.mem_cons]
      tauto
    · simp only [List.map_cons, List.mem_cons, ih]
      tauto

theorem keysNodup_dassign {d : List (String × V)} (hd : keysNodup d)
    (k : String) (v : V) : keysNodup (dassign d k v) := by
  induction d with
  | nil => simp [dassign, keysNodup]
  | cons hd2 t ih =>
    obtain ⟨a, b⟩ := hd2
    rw [keysNodup, List.map_cons, List.nodup_cons] at hd
    simp only [dassign]
    split
    · rename_i hak
      subst hak
      rw [keysNodup, List.map_cons, List.nodup_cons]
      exact ⟨hd.1, hd.2⟩
    · rename_i hak
      rw [keysNodup, List.map_cons, List.nodup_cons]
      refine ⟨fun hmem => ?_, ih hd.2⟩
      rcases mem_keys_dassign.mp hmem with h | h
      · exact hak h
      · exact hd.1 h

/-! ## Extraction-loop lemmas (`__call__` lines 123-130) -/

theorem extractGo_fst_keysNodup (names : List String) :
    ∀ (vars dic : List (String × V)), keysNodup dic →
      keysNodup (extractGo names vars dic).1 := by
  induction names with
  | nil => intro vars dic h; exact h
  | cons n rest ih =>
    intro vars dic h
    simp only [extractGo]
    split
    · exact ih _ _ (keysNodup_dassign h n _)
    · exact ih _ _ h

theorem dlookup_extractGo_snd (names : List String) :
    ∀ (vars dic : List (String × V)), keysNodup vars → ∀ k,
      dlookup (extractGo names vars dic).2 k =
        if k ∈ names then none else dlookup vars k := by
  induction names with
  | nil => intro vars dic _ k; simp [extractGo]
  | cons n rest ih =>
    intro vars dic hv k
    simp only [extractGo]
    split
    · rename_i v vars2 heq
      have hv2 : keysNodup vars2 := by
        have := keysNodup_dpop hv n
        rwa [heq] at this
      rw [ih vars2 _ hv2 k]
      by_cases hkn : k = n
      · subst hkn
        have hnone : dlookup vars2 k = none := by
          have := dlookup_dpop_self hv k
          rwa [heq] at this
        simp only [List.mem_cons, true_or, if_pos]
        split
        · rfl
        · exact hnone
      · have hse : dlookup vars2 k = dlookup vars k := by
          have := dlookup_dpop_ne hkn vars
          rwa [heq] at this
        simp [List.mem_cons, hkn, hse]
    · rename_i heq
      rw [ih vars dic hv k]
      by_cases hkn : k = n
      · subst hkn
        have hnone : dlookup vars k = none := by
          rw [← dpop_fst, heq]
        simp only [List.mem_cons, true_or, if_pos]
        split
        · rfl
        · exact hnone
      · simp [List.mem_cons, hkn]

theorem dlookup_extractGo_fst (names : List String) :
    ∀ (vars dic : List (String × V)), keysNodup vars → ∀ k,
      dlookup (extractGo names vars dic).1 k =
        if k ∈ names ∧ (dlookup vars k).isSome then dlookup vars k
        else dlookup dic k := by
  induction names with
  | nil => intro vars dic _ k; simp [extractGo]
  | cons n rest ih =>
    intro vars dic hv k
    simp only [extractGo]
    split
    · rename_i v vars2 heq
      have hv2 : keysNodup vars2 := by
        have := keysNodup_dpop hv n
        rwa [heq] at this
      rw [ih vars2 _ hv2 k]
      by_cases hkn : k = n
      · subst hkn
        have hsome : dlookup vars k = some v := by
          rw [← dpop_fst, heq]
        have hnone : dlookup vars2 k = none := by
          have := dlookup_dpop_self hv k
          rwa [heq] at this
        rw [hnone]
        simp only [Option.isSome_none, Bool.false_eq_true, and_false, if_false,
          dlookup_dassign, if_pos rfl, hsome, List.mem_cons, true_or,
          Option.isSome_some, and_true, if_pos]
      · have hse : dlookup vars2 k = dlookup vars k := by
          have := dlookup_dpop_ne hkn vars
          rwa [heq] at this
        have hda : dlookup (dassign dic n v) k = dlookup dic k := by
          rw [dlookup_dassign, if_neg (fun h => hkn h.symm)]
        simp [List.mem_cons, hkn, hse, hda]
    · rename_i heq
      rw [ih vars dic hv k]
      by_cases hkn : k = n
      · subst hkn
        have hnone : dlookup vars k = none := by
          rw [← dpop_fst, heq]
        simp [hnone]
      · simp [List.mem_cons, hkn]

/-! ## Snapshot serialization lemmas -/

theorem pairLe_fst {a b : String × String} (h : pairLe a b) : a.1 ≤ b.1 := by
  rcases h with h | ⟨h, _⟩
  · exact le_of_lt h
  · exact le_of_eq h

theorem snapshotOf_perm (render : V → String) (m : List (String × V)) :
    List.Perm (snapshotOf render m) (m.map fun kv => (kv.1, render kv.2)) :=
  List.perm_insertionSort pairLe _

theorem snapshotOf_sorted (render : V → String) (m : List (String × V)) :
    List.Sorted pairLe (snapshotOf render m) :=
  List.sorted_insertionSort pairLe _

theorem snapshotOf_names_sorted (render : V → String) (m : List (String × V)) :
    (snapshotOf render m).Pairwise
      (fun a b : String × String => a.1 ≤ b.1) :=
  (snapshotOf_sorted render m).imp pairLe_fst

theorem keys_map_render (render : V → String) (m : List (String × V)) :
    ((m.map fun kv => (kv.1, render kv.2)).map Prod.fst) = m.map Prod.fst := by
  rw [List.map_map]
  rfl

theorem keysNodup_snapshotOf (render : V → String) {m : List (String × V)}
    (hm : keysNodup m) : keysNodup (snapshotOf render m) := by
  rw [keysNodup]
  have hperm := (snapshotOf_perm render m).map Prod.fst
  rw [keys_map_render] at hperm
  exact hperm.nodup_iff.mpr hm

theorem dlookup_map_render (render : V → String) (m : List (String × V))
    (k : String) :
    dlookup (m.map fun kv => (kv.1, render kv.2)) k =
      (dlookup m k).map render := by
  induction m with
  | nil => rfl
  | cons hd t ih =>
    obtain ⟨a, b⟩ := hd
    simp only [List.map_cons, dlookup]
    split <;> simp [ih]

theorem mem_of_dlookup_eq_some {m : List (String × V)} {k : String} {v : V}
    (h : dlookup m k = some v) : (k, v) ∈ m := by
  induction m with
  | nil => exact absurd h (by simp [dlookup])
  | cons hd t ih =>
    obtain ⟨a, b⟩ := hd
    rw [dlookup] at h
    split at h
    · rename_i hak
      obtain rfl := Option.some.inj h
      exact hak ▸ List.mem_cons_self _ _
    · exact List.mem_cons_of_mem _ (ih h)

theorem dlookup_eq_some_of_mem {m : List (String × V)} (hm : keysNodup m)
    {k : String} {v : V} (h : (k, v) ∈ m) : dlookup m k = some v := by
  induction m with
  | nil => exact absurd h (List.not_mem_nil _)
  | cons hd t ih =>
    obtain ⟨a, b⟩ := hd
    rw [keysNodup, List.map_cons, List.nodup_cons] at hm
    rcases List.mem_cons.mp h with h | h
    · have h1 : k = a := congrArg Prod.fst h
      have h2 : v = b := congrArg Prod.snd h
      subst h1
      subst h2
      simp [dlookup]
    · rw [dlookup]
      split
      · rename_i hak
        exact absurd (List.mem_map_of_mem Prod.fst h) (hak ▸ hm.1)
      · exact ih hm.2 h

theorem dlookup_of_perm {m m2 : List (String × V)} (hm : keysNodup m)
    (h : List.Perm m m2) (k : String) : dlookup m k = dlookup m2 k := by
  have hm2 : keysNodup m2 := ((h.map Prod.fst).nodup_iff).mp hm
  cases hv : dlookup m k with
  | some v =>
    exact (dlookup_eq_some_of_mem hm2
      (h.mem_iff.mp (mem_of_dlookup_eq_some hv))).symm
  | none =>
    refine (dlookup_eq_none_iff.mpr fun hmem => ?_).symm
    exact dlookup_eq_none_iff.mp hv (((h.map Prod.fst).mem_iff).mpr hmem)

theorem dlookup_snapshotOf (render : V → String) {m : List (String × V)}
    (hm : keysNodup m) (k : String) :
    dlookup (snapshotOf render m) k = (dlookup m k).map render := by
  have hmap : keysNodup (m.map fun kv => (kv.1, render kv.2)) := by
    rw [keysNodup, keys_map_render]
    exact hm
  rw [← dlookup_map_render render m k]
  exact (dlookup_of_perm hmap (snapshotOf_perm render m).symm k).symm

/-! ## Dict-construction lemmas (last write wins) -/

theorem dlookup_append (xs ys : List (String × V)) (k : String) :
    dlookup (xs ++ ys) k = (dlookup xs k).or (dlookup ys k) := by
  induction xs with
  | nil => simp [dlookup]
  | cons hd t ih =>
    obtain ⟨a, b⟩ := hd
    simp only [List.cons_append, dlookup]
    split <;> simp [ih]

theorem dlookup_foldl_dassign (l : List (String × V)) :
    ∀ (acc : List (String × V)) (k : String),
      dlookup (l.foldl (fun d kv => dassign d kv.1 kv.2) acc) k =
        (dlookup l.reverse k).or (dlookup acc k) := by
  induction l with
  | nil => intro acc k; simp [dlookup]
  | cons hd t ih =>
    obtain ⟨a, b⟩ := hd
    intro acc k
    rw [List.foldl_cons, ih, List.reverse_cons, dlookup_append,
      Option.or_assoc]
    congr 1
    rw [dlookup_dassign]
    by_cases hak : a = k <;> simp [dlookup, hak]

theorem dlookup_dictOfList (l : List (String × V)) (k : String) :
    dlookup (dictOfList l) k = dlookup l.reverse k := by
  rw [dictOfList, dlookup_foldl_dassign]
  cases dlookup l.reverse k <;> rfl

theorem keysNodup_dictOfList (l : List (String × V)) :
    keysNodup (dictOfList l) := by
  rw [dictOfList]
  have aux : ∀ (acc : List (String × V)), keysNodup acc →
      keysNodup (l.foldl (fun d kv => dassign d kv.1 kv.2) acc) := by
    induction l with
    | nil => intro acc h; exact h
    | cons hd t ih =>
      intro acc h
      rw [List.foldl_cons]
      exact ih _ (keysNodup_dassign h hd.1 hd.2)
  exact aux [] (by simp [keysNodup])

/-! ## Wire-format lemmas -/

theorem charVal_digChar {d : Nat} (hd : d < 10) : charVal (digChar d) = d := by
  interval_cases d <;> rfl

theorem isDig_digChar {d : Nat} (hd : d < 10) : isDig (digChar d) = true := by
  interval_cases d <;> rfl

theorem isDig_of_mem_encodeNat {n : Nat} {c : Char} (hc : c ∈ encodeNat n) :
    isDig c = true := by
  obtain ⟨d, hd, rfl⟩ := List.mem_map.mp hc
  exact isDig_digChar
    (Nat.digits_lt_base (by norm_num) (List.mem_reverse.mp hd))

theorem span_digits (l : List Char) (hl : ∀ c ∈ l, isDig c = true)
    (rest : List Char) :
    (l ++ ':' :: rest).takeWhile isDig = l ∧
      (l ++ ':' :: rest).dropWhile isDig = ':' :: rest := by
  induction l with
  | nil =>
    constructor
    · simp only [List.nil_append, List.takeWhile_cons]
      rw [if_neg (by decide)]
    · simp only [List.nil_append, List.dropWhile_cons]
      rw [if_neg (by decide)]
  | cons c t ih =>
    have hc : isDig c = true := hl c (List.mem_cons_self c t)
    have ht := ih fun x hx => hl x (List.mem_cons_of_mem c hx)
    constructor
    · simp only [List.cons_append, List.takeWhile_cons, hc, if_true, ht.1]
    · simp only [List.cons_append, List.dropWhile_cons, hc, if_true, ht.2]

theorem decodeNat_encodeNat (n : Nat) (rest : List Char) :
    decodeNat (encodeNat n ++ ':' :: rest) = (n, ':' :: rest) := by
  have hspan := span_digits (encodeNat n)
    (fun c hc => isDig_of_mem_encodeNat hc) rest
  rw [decodeNat, hspan.1, hspan.2]
  have hmap : (encodeNat n).map charVal = (Nat.digits 10 n).reverse := by
    rw [encodeNat, List.map_map]
    have : ∀ d ∈ (Nat.digits 10 n).reverse, (charVal ∘ digChar) d = id d := by
      intro d hd
      exact charVal_digChar
        (Nat.digits_lt_base (by norm_num) (List.mem_reverse.mp hd))
    rw [List.map_congr_left this, List.map_id]
  rw [hmap, List.reverse_reverse, Nat.ofDigits_digits]

theorem decodeStr_encodeStr (s : String) (rest : List Char) :
    decodeStr (encodeStr s ++ rest) = some (s, rest) := by
  have hre : encodeStr s ++ rest =
      encodeNat s.data.length ++ ':' :: (s.data ++ rest) := by
    simp [encodeStr, List.append_assoc]
  rw [hre, decodeStr, decodeNat_encodeNat]
  simp only
  rw [if_pos (by simp [List.length_append])]
  rw [List.take_left, List.drop_left]

theorem decodePair_encodePair (p : String × String) (rest : List Char) :
    decodePair (encodePair p ++ rest) = some (p, rest) := by
  rw [encodePair, List.append_assoc, decodePair, decodeStr_encodeStr]
  simp only
  rw [decodeStr_encodeStr]

theorem decodePairs_encode (r : Snapshot) :
    ∀ rest : List Char,
      decodePairs r.length ((r.map encodePair).flatten ++ rest) =
        some (r, rest) := by
  induction r with
  | nil => intro rest; simp [decodePairs]
  | cons p t ih =>
    intro rest
    rw [List.length_cons, List.map_cons, List.flatten_cons, List.append_assoc,
      decodePairs, decodePair_encodePair]
    simp only
    rw [ih rest]

theorem decodeRecord_encodeRecord (r : Snapshot) (rest : List Char) :
    decodeRecord (encodeRecord r ++ rest) = some (r, rest) := by
  have hre : encodeRecord r ++ rest =
      encodeNat r.length ++ ':' :: ((r.map encodePair).flatten ++ rest) := by
    simp [encodeRecord, List.append_assoc]
  rw [hre, decodeRecord, decodeNat_encodeNat]
  simp only
  rw [decodePairs_encode]

theorem decodeRecords_encode (rs : List Snapshot) :
    ∀ rest : List Char,
      decodeRecords rs.length ((rs.map encodeRecord).flatten ++ rest) =
        some (rs, rest) := by
  induction rs with
  | nil => intro rest; simp [decodeRecords]
  | cons r t ih =>
    intro rest
    rw [List.length_cons, List.map_cons, List.flatten_cons, List.append_assoc,
      decodeRecords, decodeRecord_encodeRecord]
    simp only
    rw [ih rest]

/-! ## The claims -/

/-- C1: every snapshot submitted through `__call__` is written without
blocking and without raising to the caller: the write side carries
`O_NONBLOCK` (line 108), the operation is a total function (the
`except OSError: pass` on lines 135-136 swallows the only write error), and
on a full transport buffer the state is unchanged (the write is silently
dropped); otherwise exactly one copy of the snapshot is enqueued — at-most-
once delivery. -/
theorem xtbug_c1 {V : Type} (render : V → String) (p : Pipe)
    (vars : List (String × V)) (args : List String) :
    (((xtbugCall render p vars args).1.buf = p.buf ∧ p.cap ≤ p.buf.length) ∨
      ((xtbugCall render p vars args).1.buf
          = p.buf ++ [snapshotOf render (callVars vars args)] ∧
        p.buf.length < p.cap)) ∧
      OpenFlag.O_NONBLOCK ∈ soutFlags := by
  constructor
  · by_cases h : p.buf.length < p.cap
    · exact Or.inr ⟨by simp [xtbugCall, osWriteNB, h], h⟩
    · exact Or.inl ⟨by simp [xtbugCall, osWriteNB, h], le_of_not_lt h⟩
  · simp [soutFlags]

/-- C2: the serialized snapshot of any submitted mapping is exactly the
pairs `(name, render value)` of the mapping (a permutation of them: values
are rendered to text before transport), arranged in ascending name order. -/
theorem xtbug_c2 {V : Type} (render : V → String) (m : List (String × V)) :
    (snapshotOf render m).Pairwise
      (fun a b : String × String => a.1 ≤ b.1) ∧
      List.Perm (snapshotOf render m)
        (m.map fun kv => (kv.1, render kv.2)) :=
  ⟨snapshotOf_names_sorted render m, snapshotOf_perm render m⟩

/-- C3: the framing is self-delimiting and lossless: decoding an encoded
record followed by arbitrary stream bytes returns exactly the original
snapshot and exactly the remaining bytes, and a concatenation of several
encoded records decodes, in order, to exactly those records. -/
theorem xtbug_c3 :
    (∀ (r : Snapshot) (rest : List Char),
        decodeRecord (encodeRecord r ++ rest) = some (r, rest)) ∧
      ∀ rs : List Snapshot,
        decodeRecords rs.length ((rs.map encodeRecord).flatten)
          = some (rs, []) := by
  refine ⟨decodeRecord_encodeRecord, fun rs => ?_⟩
  have h := decodeRecords_encode rs []
  rwa [List.append_nil] at h

/-- C4: for a mapping populated by any insertion sequence (last write wins,
`dictOfList`), the serialized snapshot is key-unique and name-sorted, and
the pair for each name carries the rendering of the last value written for
that name; the dict built by the named-extraction variant is key-unique as
well. -/
theorem xtbug_c4 {V : Type} (render : V → String) (l : List (String × V))
    (names : List String) (k : String) :
    keysNodup (snapshotOf render (dictOfList l)) ∧
      (snapshotOf render (dictOfList l)).Pairwise
        (fun a b : String × String => a.1 ≤ b.1) ∧
      dlookup (snapshotOf render (dictOfList l)) k
        = (dlookup l.reverse k).map render ∧
      keysNodup (snapshotOf render (extractGo names (dictOfList l) []).1) := by
  refine ⟨keysNodup_snapshotOf render (keysNodup_dictOfList l),
    snapshotOf_names_sorted render _, ?_,
    keysNodup_snapshotOf render
      (extractGo_fst_keysNodup names _ [] (by simp [keysNodup]))⟩
  rw [dlookup_snapshotOf render (keysNodup_dictOfList l) k,
    dlookup_dictOfList]

/-- C5: the render loop repaints only when the newly formatted text differs
from the previously rendered text, and running the loop twice on the same
snapshot repaints at most once (the second iteration never repaints). -/
theorem xtbug_c5 (bound : Nat) (st : ScreenState) (snap : Snapshot) :
    ((renderStep bound st snap).2 = true →
      formatSnapshot snap ≠ st.outprev) ∧
      (renderStep bound (renderStep bound st snap).1 snap).2 = false := by
  by_cases h : formatSnapshot snap ≠ "" ∧ formatSnapshot snap ≠ st.outprev
  · refine ⟨fun _ => h.2, ?_⟩
    have h1 : (renderStep bound st snap).1.outprev = formatSnapshot snap := by
      rw [renderStep, if_pos h]
    generalize (renderStep bound st snap).1 = st2 at h1 ⊢
    rw [renderStep, if_neg]
    intro hcond
    exact hcond.2 h1.symm
  · have h0 : renderStep bound st snap = (st, false) := by
      rw [renderStep, if_neg h]
    have h1 : (renderStep bound st snap).1 = st := by rw [h0]
    refine ⟨fun hr => ?_, ?_⟩
    · rw [h0] at hr
      exact absurd hr (by simp)
    · rw [h1, h0]

/-- Witness for C5 at a concrete state and snapshot. -/
theorem xtbug_c5_witness :
    (renderStep 100
      (renderStep 100 ⟨"", ""⟩ [("x", "42")]).1
      [("x", "42")]).2 = false :=
  (xtbug_c5 100 ⟨"", ""⟩ [("x", "42")]).2

/-- C6: the named-extraction variant builds its dict from exactly the
requested names present in the supplied mapping, each bound to the
rendering of its mapped value; names not present are silently skipped (the
serialized snapshot simply has no pair for them, and the operation is a
total function — no error). -/
theorem xtbug_c6 {V : Type} (render : V → String) (m : List (String × V))
    (names : List String) (k : String) (hm : keysNodup m) :
    dlookup (snapshotOf render (extractGo names m []).1) k
      = if k ∈ names then (dlookup m k).map render else none := by
  have hdic : keysNodup (extractGo names m []).1 :=
    extractGo_fst_keysNodup names m [] (by simp [keysNodup])
  rw [dlookup_snapshotOf render hdic k, dlookup_extractGo_fst names m [] hm k]
  by_cases hk : k ∈ names
  · cases hv : dlookup m k with
    | some v => simp [hk, hv]
    | none => simp [hk, hv, dlookup]
  · simp [hk, dlookup]

/-- Witness for C6: extracting `["b", "zz"]` from `{a: 1, b: 2}` yields a
snapshot whose pair for `b` is the rendered `2`; `zz` was skipped without
error. -/
theorem xtbug_c6_witness :
    dlookup (snapshotOf (fun n : Nat => toString n)
        (extractGo ["b", "zz"] [("a", 1), ("b", 2)] []).1) "b"
      = some "2" ∧
    dlookup (snapshotOf (fun n : Nat => toString n)
        (extractGo ["b", "zz"] [("a", 1), ("b", 2)] []).1) "zz"
      = none := by
  have h1 := xtbug_c6 (fun n : Nat => toString n) [("a", 1), ("b", 2)]
    ["b", "zz"] "b" (by decide)
  have h2 := xtbug_c6 (fun n : Nat => toString n) [("a", 1), ("b", 2)]
    ["b", "zz"] "zz" (by decide)
  exact ⟨h1.trans (by decide), h2.trans (by decide)⟩

/-- C7: construction removes a pre-existing transport object and recreates
it fresh (the surviving object is never the stale one), and it surfaces an
error to the caller exactly when the filesystem object cannot be
(re)created. -/
theorem xtbug_c7 (fs : FS) (hfresh : ∀ o, fs.pipe = some o → o < fs.nextId) :
    ((∃ fs2, initTransport fs = Except.ok fs2) ↔ fs.canCreate = true) ∧
      (∀ fs2, initTransport fs = Except.ok fs2 →
        fs2.pipe.isSome = true ∧ ∀ o, fs.pipe = some o → fs2.pipe ≠ some o) ∧
      (fs.canCreate = false → ∃ e, initTransport fs = Except.error e) := by
  obtain ⟨pipe, nextId, canCreate⟩ := fs
  cases pipe with
  | none =>
    cases canCreate
    · simp [initTransport, mkfifo, removePipe]
    · simp [initTransport, mkfifo, removePipe]
  | some o =>
    have ho : o < nextId := hfresh o rfl
    cases canCreate
    · simp [initTransport, mkfifo, removePipe]
    · have hval : initTransport (FS.mk (some o) nextId true) =
          Except.ok (FS.mk (some nextId) (nextId + 1) true) := rfl
      refine ⟨⟨fun _ => rfl, fun _ => ⟨_, hval⟩⟩, ?_, ?_⟩
      · intro fs2 h2
        rw [hval] at h2
        obtain rfl := Except.ok.inj h2
        refine ⟨rfl, ?_⟩
        intro o2 ho2 hcontra
        have he1 : o = o2 := Option.some.inj ho2
        have he2 : nextId = o2 := Option.some.inj hcontra
        omega
      · intro hc
        exact absurd hc (by simp)

/-- Witness for C7: a stale pipe object from a prior session (id 0) in a
creatable environment is removed and construction succeeds. -/
theorem xtbug_c7_witness :
    (∃ fs2, initTransport ⟨some 0, 1, true⟩ = Except.ok fs2) ↔
      (FS.mk (some 0) 1 true).canCreate = true :=
  (xtbug_c7 ⟨some 0, 1, true⟩
    (fun o ho => by
      have h0 : (0 : Nat) = o := Option.some.inj ho
      show o < 1
      omega)).1

/-- C8 (claim violated by the code): `__del__` is a bare `os.close` with no
guard (lines 138-139).  The first teardown succeeds, but invoking it again
after the write side has already been released raises `OSError` (`EBADF`)
instead of returning without error as the claim requires. -/
theorem xtbug_c8_close_raises :
    xtbugDel ⟨[3]⟩ 3 = Except.ok ⟨[]⟩ ∧
      xtbugDel ⟨[]⟩ 3 = Except.error OSError.EBADF := by
  exact ⟨rfl, rfl⟩

/-- C9: the named-extraction variant mutates the caller's mapping by
popping: after the call, every requested name is absent from it and every
name that was not requested still has its original value. -/
theorem xtbug_c9 {V : Type} (m : List (String × V)) (names : List String)
    (k : String) (hm : keysNodup m) :
    dlookup (extractGo names m []).2 k
      = if k ∈ names then none else dlookup m k :=
  dlookup_extractGo_snd names m [] hm k

/-- Witness for C9: after extracting `["b", "zz"]` from `{a: 1, b: 2}`, the
mapping has lost `b` and kept `a`. -/
theorem xtbug_c9_witness :
    dlookup (extractGo ["b", "zz"] [("a", 1), ("b", (2 : Nat))] []).2 "b"
        = none ∧
      dlookup (extractGo ["b", "zz"] [("a", 1), ("b", (2 : Nat))] []).2 "a"
        = some 1 := by
  have h1 := xtbug_c9 [("a", 1), ("b", (2 : Nat))] ["b", "zz"] "b" (by decide)
  have h2 := xtbug_c9 [("a", 1), ("b", (2 : Nat))] ["b", "zz"] "a" (by decide)
  exact ⟨h1.trans (by decide), h2.trans (by decide)⟩

/-- C10: an empty snapshot formats to empty text, and the render loop then
leaves the state — including the screen — exactly as it was, with no
repaint, whatever was previously displayed. -/
theorem xtbug_c10 (bound : Nat) (st : ScreenState) :
    formatSnapshot ([] : Snapshot) = "" ∧
      renderStep bound st [] = (st, false) := by
  refine ⟨rfl, ?_⟩
  rw [renderStep]
  simp [formatSnapshot]

end Xtbug
